import Mathlib

/-!
Shallow embedding of `src/spotifytoken.js` (devoxin/anonify): the Spotify
token handler with its cooperative `Semaphore` mutex, the cached-token
proxy (`valid` / `refresh`), the `getAccessToken` bounded fetch protocol
(deadline timer, `requestfinished` listener, `goto` failure callback), and
the `handler0` coordinator (fast path, double-check under the mutex,
error handling).

JS-specific semantics are modelled explicitly where they matter:
`undefined - 10000` is `NaN` and `NaN > x` is `false`; a promise settles
at the first `resolve`/`reject` call and later calls are no-ops;
`delete json._notes` on `null` throws a `TypeError`.
-/

namespace Anonify

/-- The cached token payload (`SpotifyToken` typedef in the source):
an opaque bearer string plus an absolute expiry in ms since epoch. -/
structure SpotifyToken where
  accessToken : String
  accessTokenExpirationTimestampMs : Int
deriving Repr, DecidableEq

/-- `TokenProxy.valid()`:
`this.data?.accessTokenExpirationTimestampMs - 10000 > Date.now()`.
When `data` is `undefined` (empty cache slot) the optional chaining yields
`undefined`, `undefined - 10000` is `NaN`, and `NaN > now` is `false`,
so the `none` branch returns `false` without raising. -/
def valid (data : Option SpotifyToken) (now : Int) : Bool :=
  match data with
  | none => false
  | some t => t.accessTokenExpirationTimestampMs - 10000 > now

/-- `Semaphore` state: the `_locked` flag and the `_waiters` array.
Waiters are identified by caller ids (the source stores their promise
`resolve` handles; resuming id `j` models calling waiter `j`'s handle). -/
structure Semaphore where
  _locked : Bool
  _waiters : List Nat
deriving Repr, DecidableEq

/-- `new Semaphore()`. -/
def Semaphore.init : Semaphore := ⟨false, []⟩

/-- `Semaphore.acquire()` by caller `id`: if `_locked`, the caller is
appended to `_waiters` and suspends (second component `false` = did not
get the lock now); otherwise `_locked := true` and the caller holds the
lock immediately (`true`). -/
def Semaphore.acquire (s : Semaphore) (id : Nat) : Semaphore × Bool :=
  if s._locked then ({ s with _waiters := s._waiters ++ [id] }, false)
  else ({ s with _locked := true }, true)

/-- `Semaphore._release()`: shift the first waiter; if one exists, resume
it (handing over the lock, `_locked` untouched); otherwise set
`_locked := false`. Returns the resumed waiter, if any. -/
def Semaphore._release (s : Semaphore) : Semaphore × Option Nat :=
  match s._waiters with
  | w :: rest => ({ s with _waiters := rest }, some w)
  | [] => ({ s with _locked := false }, none)

/-- Repeated `_release`: perform `n` releases, collecting the resumed
waiters in order. -/
def Semaphore.releaseSeq (s : Semaphore) : Nat → List Nat × Semaphore
  | 0 => ([], s)
  | n + 1 =>
    let (s', w) := s._release
    let (ws, sf) := s'.releaseSeq n
    (w.toList ++ ws, sf)

/-- Ghost-instrumented mutex state for the holder invariant: the raw
`Semaphore` plus who currently holds the lock (not stored by the source;
tracked here to state the `locked == true iff a holder exists`
invariant). -/
structure MutexGhost where
  sem : Semaphore
  holder : Option Nat
deriving Repr, DecidableEq

/-- The operations a client can perform on the mutex. -/
inductive MutexOp where
  | acquire (id : Nat)
  | release
deriving Repr, DecidableEq

/-- One mutex operation, with ghost holder tracking: a successful
immediate `acquire` installs the caller as holder; `release` hands the
holder role to the resumed waiter, or clears it when none waits. -/
def mutexStep (m : MutexGhost) : MutexOp → MutexGhost
  | .acquire id =>
    let (s', got) := m.sem.acquire id
    ⟨s', if got then some id else m.holder⟩
  | .release =>
    let (s', w) := m.sem._release
    ⟨s', w⟩

/-- Initial ghost mutex state: unlocked, no waiters, no holder. -/
def mutexInit : MutexGhost := ⟨Semaphore.init, none⟩

/-- Run a sequence of mutex operations from a state. -/
def mutexRun (m : MutexGhost) (ops : List MutexOp) : MutexGhost :=
  ops.foldl mutexStep m

/-- The mutex invariant of the spec: `locked` iff a holder exists, and
the waiter sequence is non-empty only while locked. -/
def MutexInv (m : MutexGhost) : Prop :=
  m.sem._locked = m.holder.isSome ∧ (m.sem._waiters ≠ [] → m.sem._locked = true)

instance (m : MutexGhost) : Decidable (MutexInv m) := by
  unfold MutexInv; infer_instance

/-! ## The bounded fetch protocol (`getAccessToken`) -/

/-- The JSON payload of the observed `/api/token` response, with the
internal `_notes` field the source deletes before resolving. -/
structure RawJson where
  accessToken : String
  accessTokenExpirationTimestampMs : Int
  _notes : Option String
deriving Repr, DecidableEq

/-- The observed response of a finished request. `json = none` models
`response.json()` rejecting (unparseable body), which the source catches
to `null`. A missing response (`event.response()` rejecting, caught to
`null`) is modelled as `Option UpstreamResponse` being `none` at the
call site. -/
structure UpstreamResponse where
  ok : Bool
  json : Option RawJson
deriving Repr, DecidableEq

/-- Does the character list start with the given pattern? -/
def charsStartWith : List Char → List Char → Bool
  | _, [] => true
  | [], _ :: _ => false
  | c :: cs, d :: ds => c == d && charsStartWith cs ds

/-- Does the character list contain the given pattern as a contiguous
run? (Structural model of JS `String.prototype.includes`.) -/
def charsContain (hay needle : List Char) : Bool :=
  match hay with
  | [] => needle.isEmpty
  | _ :: rest => charsStartWith hay needle || charsContain rest needle

/-- `event.url().includes("/api/token")`. -/
def urlIncludesApiToken (u : String) : Bool :=
  charsContain u.toList "/api/token".toList

/-- Observable state of one fetch attempt after the browser and page are
both open: the `processedAccessTokenRequest` flag, whether the
`requestfinished` listener is still attached (`removeAllListeners`),
the promise state (`settled` = outcome fixed by the first
`resolve`/`reject` call), instrumentation counters for settle calls,
none-to-some settlement transitions, and `browser.close()` calls, the
deadline warning log, and whether the listener body threw
(`delete json._notes` on `null`). -/
structure FetchState where
  processedAccessTokenRequest : Bool
  listenersAttached : Bool
  settled : Option (Except String RawJson)
  settleCalls : Nat
  settleTransitions : Nat
  closeCalls : Nat
  warnLogged : Bool
  listenerCrashed : Bool
deriving Repr

instance : DecidableEq (Except String RawJson) := fun a b =>
  match a, b with
  | .ok x, .ok y =>
    if h : x = y then .isTrue (by rw [h]) else .isFalse (by simp [h])
  | .ok _, .error _ => .isFalse (by simp)
  | .error _, .ok _ => .isFalse (by simp)
  | .error x, .error y =>
    if h : x = y then .isTrue (by rw [h]) else .isFalse (by simp [h])

/-- A `resolve`/`reject` call on the attempt's promise: the call is
always counted, but the outcome is recorded only if the promise is not
yet settled (JS promises settle exactly once; later calls are no-ops). -/
def promiseSettle (s : FetchState) (o : Except String RawJson) : FetchState :=
  { s with
    settleCalls := s.settleCalls + 1
    settled := match s.settled with | some x => some x | none => some o
    settleTransitions :=
      match s.settled with
      | some _ => s.settleTransitions
      | none => s.settleTransitions + 1 }

/-- The racing events of one fetch attempt: the 15000 ms deadline timer,
a `requestfinished` page event, and the `page.goto` rejection
callback. -/
inductive FetchEvent where
  | deadline
  | requestFinished (url : String) (resp : Option UpstreamResponse)
  | gotoFailed (err : String)
deriving Repr, DecidableEq

/-- One event handler execution, mirroring `getAccessToken`:
* `deadline` (the timer is never cleared): warn if the token request was
  never processed, then unconditionally `browser.close()` and `reject`.
* `requestFinished`: ignored once listeners are removed or when the URL
  lacks `/api/token`; otherwise set the processed flag, and on a missing
  or not-ok response remove listeners, close, reject "Invalid response
  from Spotify."; on an ok but unparseable response remove listeners and
  close, then `delete json._notes` throws (`listenerCrashed`, no
  settlement); on a parseable ok response remove listeners, close, and
  resolve with the payload minus `_notes`.
* `gotoFailed`: if the token request was not yet processed, close and
  reject with the goto error. -/
def fetchStep (s : FetchState) : FetchEvent → FetchState
  | .deadline =>
    let s1 := if !s.processedAccessTokenRequest then { s with warnLogged := true } else s
    promiseSettle { s1 with closeCalls := s1.closeCalls + 1 }
      (.error "Token fetch exceeded deadline")
  | .requestFinished url resp =>
    if !s.listenersAttached then s
    else if !urlIncludesApiToken url then s
    else
      let s1 := { s with processedAccessTokenRequest := true }
      match resp with
      | none =>
        promiseSettle { s1 with listenersAttached := false, closeCalls := s1.closeCalls + 1 }
          (.error "Invalid response from Spotify.")
      | some r =>
        if !r.ok then
          promiseSettle { s1 with listenersAttached := false, closeCalls := s1.closeCalls + 1 }
            (.error "Invalid response from Spotify.")
        else
          match r.json with
          | none =>
            { s1 with listenersAttached := false, closeCalls := s1.closeCalls + 1,
                      listenerCrashed := true }
          | some j =>
            promiseSettle { s1 with listenersAttached := false, closeCalls := s1.closeCalls + 1 }
              (.ok { j with _notes := none })
  | .gotoFailed err =>
    if !s.processedAccessTokenRequest then
      promiseSettle { s with closeCalls := s.closeCalls + 1 }
        (.error ("Failed to goto URL: " ++ err))
    else s

/-- Fetch state right after a successful setup (browser launched, page
opened, listener attached, timer armed). -/
def fetchInit : FetchState :=
  { processedAccessTokenRequest := false
    listenersAttached := true
    settled := none
    settleCalls := 0
    settleTransitions := 0
    closeCalls := 0
    warnLogged := false
    listenerCrashed := false }

/-- Run a fetch attempt through a sequence of events. -/
def runFetch (es : List FetchEvent) : FetchState :=
  es.foldl fetchStep fetchInit

/-- Outcome of the setup phase of `getAccessToken` (lines 52-105):
how often `browser.close()` ran during setup, the first `reject` if any,
whether the deadline timer got armed, whether the
`page.addListener` call threw (`page` is `undefined`), and whether the
executor returned before reaching the timer. -/
structure SetupResult where
  closeCalls : Nat
  rejected : Option String
  timerScheduled : Bool
  listenerThrew : Bool
  returnedEarly : Bool
deriving Repr, DecidableEq

/-- Lines 67-105 of the source, reached whenever the browser launched:
declare the processed flag, arm the deadline timer (line 69), then call
`page.addListener` (line 78) — which throws a `TypeError` when the page
failed to open, since `page` is `undefined`. -/
def afterPageCheck (pageExists : Bool) (closes : Nat) (rej : Option String) : SetupResult :=
  if pageExists then
    { closeCalls := closes, rejected := rej, timerScheduled := true
      listenerThrew := false, returnedEarly := false }
  else
    { closeCalls := closes, rejected := rej, timerScheduled := true
      listenerThrew := true, returnedEarly := false }

/-- The setup phase of `getAccessToken`: if the launch failed the
executor does `return reject(...)` (short-circuits); if the page open
failed it does `browser.close(); reject(...)` WITHOUT `return`, so
execution falls through to the timer and the listener registration;
otherwise it proceeds normally. -/
def getAccessTokenSetup (browserLaunched pageOpened : Bool) : SetupResult :=
  if !browserLaunched then
    { closeCalls := 0, rejected := some "Failed to launch browser"
      timerScheduled := false, listenerThrew := false, returnedEarly := true }
  else if !pageOpened then
    afterPageCheck false 1 (some "Failed to open new page")
  else
    afterPageCheck true 0 none

/-- Settlement bookkeeping invariant of a fetch attempt: the number of
none-to-some settlement transitions is 1 if the promise is settled and 0
otherwise, and a settled attempt has closed the browser at least once. -/
def FP (s : FetchState) : Prop :=
  s.settleTransitions = (if s.settled.isSome then 1 else 0) ∧
  (s.settled.isSome → 1 ≤ s.closeCalls)

/-- A concrete `/api/token` request URL. -/
def tokenUrl : String := "https://open.spotify.com/api/token"

/-! ## The token cache coordinator (`handler0`)

Cooperative interleaving semantics for N logically-concurrent `handler0`
calls sharing the module-level `cachedAccessToken` slot and `semaphore`.
Each call (task) runs atomically between its suspension points — the
`await this.semaphore.acquire()` and the `await token.refresh()` — which
matches JS run-to-completion scheduling. A scheduler (a list of task
indices) picks which runnable task executes its next segment. -/

instance : DecidableEq (Except String SpotifyToken) := fun a b =>
  match a, b with
  | .ok x, .ok y =>
    if h : x = y then .isTrue (by rw [h]) else .isFalse (by simp [h])
  | .ok _, .error _ => .isFalse (by simp)
  | .error _, .ok _ => .isFalse (by simp)
  | .error x, .error y =>
    if h : x = y then .isTrue (by rw [h]) else .isFalse (by simp [h])

/-- Where a `handler0` call stands between its suspension points:
about to run the unlocked fast-path check (`start`); parked in the
semaphore's waiter queue (`waitLock`); holding the lock, about to run
the double-check (`hasLock`); suspended on `token.refresh()` with the
outcome the fetch will deliver (`fetching`); finished with its response
body (`done` — `.ok` is a 200 with the credential, `.error` is the
`catch` branch: status 500, empty body, error logged). -/
inductive Phase where
  | start
  | waitLock
  | hasLock
  | fetching (outcome : Except String SpotifyToken)
  | done (body : Except String SpotifyToken)
deriving Repr, DecidableEq

/-- One `handler0` call: its `isForce` query flag and current phase. -/
structure HTask where
  isForce : Bool
  ph : Phase
deriving Repr, DecidableEq

/-- The shared state: the handler's `cachedAccessToken` slot, the
module `semaphore` (waiters hold task indices), a ghost counter of
`getAccessToken` invocations, and the tasks. -/
structure Config where
  cachedAccessToken : Option SpotifyToken
  semaphore : Semaphore
  fetchCount : Nat
  tasks : List HTask
deriving Repr, DecidableEq

/-- `ctx.body = token.data`: the body served from the cache slot. The
`none` case cannot arise on the paths that serve the cache (they are
guarded by `valid`), and stands for JS `undefined`. -/
def cacheBody : Option SpotifyToken → Except String SpotifyToken
  | some d => .ok d
  | none => .error "undefined body"

/-- Replace task `j`'s phase (out-of-range indices leave the list
unchanged). -/
def setTaskPhase (ts : List HTask) (j : Nat) (p : Phase) : List HTask :=
  match ts[j]? with
  | some t => ts.set j { t with ph := p }
  | none => ts

/-- The `finally { release() }` of `handler0`: `Semaphore._release`
pops the first waiter if any and resumes it — the resumed task becomes
the lock holder (`hasLock`); otherwise the lock is marked free. -/
def coordRelease (c : Config) : Config :=
  match c.semaphore._release with
  | (s', some j) => { c with semaphore := s', tasks := setTaskPhase c.tasks j .hasLock }
  | (s', none) => { c with semaphore := s' }

/-- One execution segment of task `i` (scheduling a suspended or
finished or out-of-range task is a no-op):
* `start`: if `!isForce && token.valid()`, serve the cache and finish
  (no locking); otherwise `semaphore.acquire()` — take the lock if free
  (`hasLock`), else join the waiter queue (`waitLock`).
* `hasLock`: the double-check — if `!isForce && token.valid()`, serve
  the cache, then release; otherwise invoke `token.refresh()` (the
  ghost `fetchCount` ticks, and the oracle fixes this invocation's
  outcome), suspending as `fetching`.
* `fetching (.ok d)`: `refresh` stores the fresh token in the cache
  slot and the body is the token; then release.
* `fetching (.error e)`: the `catch` branch — cache slot untouched,
  status 500, empty body; then release. -/
def taskStep (now : Int) (oracle : Nat → Except String SpotifyToken)
    (c : Config) (i : Nat) : Config :=
  match c.tasks[i]? with
  | none => c
  | some t =>
    match t.ph with
    | .start =>
      if !t.isForce && valid c.cachedAccessToken now then
        { c with tasks := setTaskPhase c.tasks i (.done (cacheBody c.cachedAccessToken)) }
      else
        match c.semaphore.acquire i with
        | (s', true) => { c with semaphore := s', tasks := setTaskPhase c.tasks i .hasLock }
        | (s', false) => { c with semaphore := s', tasks := setTaskPhase c.tasks i .waitLock }
    | .hasLock =>
      if !t.isForce && valid c.cachedAccessToken now then
        coordRelease
          { c with tasks := setTaskPhase c.tasks i (.done (cacheBody c.cachedAccessToken)) }
      else
        { c with fetchCount := c.fetchCount + 1
                 tasks := setTaskPhase c.tasks i (.fetching (oracle c.fetchCount)) }
    | .fetching (.ok d) =>
      coordRelease
        { c with cachedAccessToken := some d
                 tasks := setTaskPhase c.tasks i (.done (.ok d)) }
    | .fetching (.error e) =>
      coordRelease { c with tasks := setTaskPhase c.tasks i (.done (.error e)) }
    | .waitLock => c
    | .done _ => c

/-- Run tasks under a schedule (a list of task indices). -/
def runCoord (now : Int) (oracle : Nat → Except String SpotifyToken)
    (c : Config) (sched : List Nat) : Config :=
  sched.foldl (taskStep now oracle) c

/-- N `get(false)` calls arriving at an empty cache with a free lock. -/
def initConfig (n : Nat) : Config :=
  { cachedAccessToken := none, semaphore := Semaphore.init, fetchCount := 0
    tasks := List.replicate n ⟨false, .start⟩ }

/-- N `get(false)` calls arriving at an arbitrary cache slot (empty,
or holding a possibly expired credential) with a free lock. -/
def initConfigWith (slot : Option SpotifyToken) (n : Nat) : Config :=
  { cachedAccessToken := slot, semaphore := Semaphore.init, fetchCount := 0
    tasks := List.replicate n ⟨false, .start⟩ }

/-- Is the task holding the lock (running its critical section or
suspended on the fetch)? -/
def isActive : Phase → Bool
  | .hasLock => true
  | .fetching _ => true
  | _ => false

/-- Has the call finished? -/
def isDone : Phase → Bool
  | .done _ => true
  | _ => false

/-- Is the task suspended on `token.refresh()`? -/
def isFetchingPhase : Phase → Bool
  | .fetching _ => true
  | _ => false

/-- Run phase before any fetch started: the cache slot is invalid at
the burst's time (empty, or holding an expired credential), no
invocation yet, nobody finished or fetching. -/
def CoordPhaseA (now : Int) (c : Config) : Prop :=
  valid c.cachedAccessToken now = false ∧ c.fetchCount = 0 ∧
  ∀ (i : Nat) (t : HTask), c.tasks[i]? = some t →
    isDone t.ph = false ∧ isFetchingPhase t.ph = false

/-- Run phase with the single fetch in flight: the cache slot is still
the invalid original (empty or stale — `refresh` writes only on
success), one invocation whose outcome is `.ok d`, nobody finished
yet. -/
def CoordPhaseB (now : Int) (d : SpotifyToken) (c : Config) : Prop :=
  valid c.cachedAccessToken now = false ∧ c.fetchCount = 1 ∧
  (∀ (i : Nat) (t : HTask), c.tasks[i]? = some t → isDone t.ph = false) ∧
  (∀ (i : Nat) (t : HTask) (o : Except String SpotifyToken),
    c.tasks[i]? = some t → t.ph = .fetching o → o = .ok d) ∧
  (∃ (i : Nat) (t : HTask), c.tasks[i]? = some t ∧ isFetchingPhase t.ph = true)

/-- Run phase after the fetch delivered `d`: cache filled, one
invocation, nobody fetching, every finished call got `d`. -/
def CoordPhaseC (d : SpotifyToken) (c : Config) : Prop :=
  c.cachedAccessToken = some d ∧ c.fetchCount = 1 ∧
  (∀ (i : Nat) (t : HTask), c.tasks[i]? = some t → isFetchingPhase t.ph = false) ∧
  (∀ (i : Nat) (t : HTask) (b : Except String SpotifyToken),
    c.tasks[i]? = some t → t.ph = .done b → b = .ok d)

/-- Inductive invariant of a burst of `get(false)` calls whose single
fetch succeeds with `d`: all tasks are unforced, the waiter queue lists
distinct suspended tasks, at most one task is ever in the critical
section, the lock flag tracks occupancy, and the run is in phase A, B
or C. -/
def CoordInv (now : Int) (d : SpotifyToken) (c : Config) : Prop :=
  (∀ (i : Nat) (t : HTask), c.tasks[i]? = some t → t.isForce = false) ∧
  c.semaphore._waiters.Nodup ∧
  (∀ j, j ∈ c.semaphore._waiters → c.tasks[j]? = some ⟨false, .waitLock⟩) ∧
  (∀ (i j : Nat) (ti tj : HTask), c.tasks[i]? = some ti → c.tasks[j]? = some tj →
    isActive ti.ph = true → isActive tj.ph = true → i = j) ∧
  (c.semaphore._locked = true ↔
    ∃ (i : Nat) (t : HTask), c.tasks[i]? = some t ∧ isActive t.ph = true) ∧
  (CoordPhaseA now c ∨ CoordPhaseB now d c ∨ CoordPhaseC d c)

/-- An oracle under which every `getAccessToken` invocation fails. -/
def failOracle : Nat → Except String SpotifyToken :=
  fun _ => .error "Token fetch exceeded deadline"

/-- A one-task configuration sitting on the fast path. -/
def c4cfg : Config :=
  { cachedAccessToken := some ⟨"tok", 20001⟩, semaphore := Semaphore.init
    fetchCount := 0, tasks := [⟨false, .start⟩] }

/-- A one-task configuration whose refresh just failed while holding
the lock. -/
def c5cfg : Config :=
  { cachedAccessToken := some ⟨"old", 0⟩, semaphore := ⟨true, []⟩
    fetchCount := 1, tasks := [⟨false, .fetching (.error "boom")⟩] }

/-! ## Theorems about `valid` and the `Semaphore` -/

/-- C3: a cached credential is valid exactly when `now < expiry - 10000`
(strict); in particular at `expiry - now = 10000` it is invalid, at
`10001` valid, at `9999` invalid. -/
theorem valid_boundary (t : SpotifyToken) (now : Int) :
    (valid (some t) now = true ↔ now < t.accessTokenExpirationTimestampMs - 10000) ∧
    (t.accessTokenExpirationTimestampMs - now = 10000 → valid (some t) now = false) ∧
    (t.accessTokenExpirationTimestampMs - now = 10001 → valid (some t) now = true) ∧
    (t.accessTokenExpirationTimestampMs - now = 9999 → valid (some t) now = false) := by
  refine ⟨?_, ?_, ?_, ?_⟩ <;> simp [valid] <;> omega

/-- Witness for `valid_boundary` at a concrete credential with
`expiry - now = 10001`, discharging the hypothesis of the third
conjunct. -/
theorem valid_boundary_witness :
    valid (some ⟨"tok", 20000⟩) 9999 = true := by
  exact (valid_boundary ⟨"tok", 20000⟩ 9999).2.2.1 (by decide)

/-- C7: FIFO fairness and direct handoff. When a waiter exists,
`_release` resumes exactly the first waiter and leaves `_locked` as it
was (the lock is never observably free in between); with no waiter it
marks the lock free. A contended `acquire` appends to the waiter
sequence, and draining the whole queue resumes the waiters exactly in
arrival order. -/
theorem semaphore_fifo :
    (∀ (s : Semaphore) (w : Nat) (rest : List Nat), s._waiters = w :: rest →
      s._release = ({ s with _waiters := rest }, some w)) ∧
    (∀ s : Semaphore, s._waiters = [] →
      s._release = ({ s with _locked := false }, none)) ∧
    (∀ (s : Semaphore) (id : Nat), s._locked = true →
      s.acquire id = ({ s with _waiters := s._waiters ++ [id] }, false)) ∧
    (∀ ws : List Nat,
      Semaphore.releaseSeq ⟨true, ws⟩ ws.length = (ws, ⟨true, []⟩)) := by
  refine ⟨?_, ?_, ?_, ?_⟩
  · intro s w rest h; simp [Semaphore._release, h]
  · intro s h; simp [Semaphore._release, h]
  · intro s id h; simp [Semaphore.acquire, h]
  · intro ws
    induction ws with
    | nil => rfl
    | cons w rest ih =>
      simp [Semaphore.releaseSeq, Semaphore._release, ih]

/-- Witness for `semaphore_fifo`: a concrete release resumes the first
of three queued waiters, and draining resumes them in arrival order
1, 2, 3. -/
theorem semaphore_fifo_witness :
    (⟨true, [1, 2, 3]⟩ : Semaphore)._release = (⟨true, [2, 3]⟩, some 1) ∧
    Semaphore.releaseSeq ⟨true, [1, 2, 3]⟩ 3 = ([1, 2, 3], ⟨true, []⟩) := by
  exact ⟨semaphore_fifo.1 ⟨true, [1, 2, 3]⟩ 1 [2, 3] rfl, semaphore_fifo.2.2.2 [1, 2, 3]⟩

/-- C8: in every reachable mutex state, `locked` holds iff a holder
exists and the waiter sequence is non-empty only while locked; moreover
every single `acquire`/`release` step preserves the invariant. -/
theorem mutex_invariant :
    (∀ ops : List MutexOp, MutexInv (mutexRun mutexInit ops)) ∧
    (∀ (m : MutexGhost) (op : MutexOp), MutexInv m → MutexInv (mutexStep m op)) := by
  have hstep : ∀ (m : MutexGhost) (op : MutexOp), MutexInv m → MutexInv (mutexStep m op) := by
    rintro ⟨⟨locked, waiters⟩, holder⟩ op ⟨h₁, h₂⟩
    cases op with
    | acquire id =>
      simp only [mutexStep, Semaphore.acquire] at *
      by_cases hl : locked
      · subst hl
        simp_all [MutexInv]
      · simp [hl] at h₁ ⊢
        constructor
        · rfl
        · intro hw
          exact absurd (h₂ hw) (by simp [hl])
    | release =>
      cases waiters with
      | nil => simp_all [mutexStep, Semaphore._release, MutexInv]
      | cons w rest =>
        simp only [mutexStep, Semaphore._release] at *
        have hl : locked = true := h₂ (by simp)
        subst hl
        cases rest with
        | nil => simp [MutexInv]
        | cons a b => simp [MutexInv]
  refine ⟨?_, hstep⟩
  intro ops
  have : ∀ (ops : List MutexOp) (m : MutexGhost), MutexInv m → MutexInv (mutexRun m ops) := by
    intro ops
    induction ops with
    | nil => intro m h; exact h
    | cons op rest ih =>
      intro m h
      exact ih (mutexStep m op) (hstep m op h)
  exact this ops mutexInit (by decide)

/-- Witness for `mutex_invariant`: the invariant holds after a concrete
operation sequence, and one concrete step from the initial state
preserves it. -/
theorem mutex_invariant_witness :
    MutexInv (mutexRun mutexInit [.acquire 0, .acquire 1, .release, .release]) ∧
    MutexInv (mutexStep mutexInit (.acquire 5)) := by
  exact ⟨mutex_invariant.1 [.acquire 0, .acquire 1, .release, .release],
    mutex_invariant.2 mutexInit (.acquire 5) (by decide)⟩

/-! ## Theorems about the fetch protocol -/

lemma FP_fetchStep (s : FetchState) (e : FetchEvent) (h : FP s) : FP (fetchStep s e) := by
  obtain ⟨h1, h2⟩ := h
  unfold FP fetchStep promiseSettle at *
  cases hs : s.settled <;> simp only [hs, Option.isSome_some, Option.isSome_none] at h1 h2 ⊢ <;>
    cases e <;> (repeat' split) <;> simp_all

lemma settled_mono_fetchStep (s : FetchState) (e : FetchEvent) (h : s.settled.isSome) :
    (fetchStep s e).settled.isSome := by
  unfold fetchStep promiseSettle
  obtain ⟨x, hx⟩ := Option.isSome_iff_exists.mp h
  cases e <;> (repeat' split) <;> simp_all

lemma deadline_settles (s : FetchState) : (fetchStep s .deadline).settled.isSome := by
  unfold fetchStep promiseSettle
  cases hs : s.settled <;> (repeat' split) <;> simp_all

lemma FP_foldl (es : List FetchEvent) (s : FetchState) (h : FP s) :
    FP (es.foldl fetchStep s) := by
  induction es generalizing s with
  | nil => exact h
  | cons e rest ih => exact ih _ (FP_fetchStep s e h)

lemma settled_mono_foldl (es : List FetchEvent) (s : FetchState) (h : s.settled.isSome) :
    (es.foldl fetchStep s).settled.isSome := by
  induction es generalizing s with
  | nil => exact h
  | cons e rest ih => exact ih _ (settled_mono_fetchStep s e h)

/-- C2 counterexample: in the run where the token request finishes with
an ok, parseable response before the deadline, the promise settles once
(with the stripped payload) but `browser.close()` is called twice — the
deadline timer is never cancelled, so it closes and rejects again.
"The external session is released exactly once" is false. -/
theorem fetch_release_twice_counterexample :
    (runFetch [.requestFinished tokenUrl (some ⟨true, some ⟨"tok", 20000, some "n"⟩⟩),
               .deadline]).closeCalls = 2 ∧
    (runFetch [.requestFinished tokenUrl (some ⟨true, some ⟨"tok", 20000, some "n"⟩⟩),
               .deadline]).settled = some (.ok ⟨"tok", 20000, none⟩) ∧
    (runFetch [.requestFinished tokenUrl (some ⟨true, some ⟨"tok", 20000, some "n"⟩⟩),
               .deadline]).settleTransitions = 1 ∧
    (runFetch [.requestFinished tokenUrl (some ⟨true, some ⟨"tok", 20000, some "n"⟩⟩),
               .deadline]).settleCalls = 2 := by
  decide

/-- C2 amended: in every event sequence in which the deadline timer
fires (it always does — the timeout is never cleared), the attempt
settles exactly once — the first `resolve`/`reject` call fixes the
outcome, later calls are no-ops — and the browser is closed at least
once; but close is NOT exactly-once (see the counterexample). -/
theorem fetch_settles_exactly_once (es : List FetchEvent)
    (h : FetchEvent.deadline ∈ es) :
    (runFetch es).settleTransitions = 1 ∧ (runFetch es).settled.isSome ∧
    1 ≤ (runFetch es).closeCalls := by
  have hFP : FP (runFetch es) := FP_foldl es fetchInit ⟨rfl, by simp [fetchInit]⟩
  have hsome : ∀ (l : List FetchEvent) (s : FetchState), FetchEvent.deadline ∈ l →
      (l.foldl fetchStep s).settled.isSome := by
    intro l
    induction l with
    | nil => intro s hs; cases hs
    | cons e rest ih =>
      intro s hs
      rcases List.mem_cons.mp hs with he | hm
      · rw [List.foldl_cons, ← he]
        exact settled_mono_foldl rest _ (deadline_settles s)
      · exact ih _ hm
  have hend : (runFetch es).settled.isSome := hsome es fetchInit h
  exact ⟨by rw [hFP.1, if_pos hend], hend, hFP.2 hend⟩

/-- Witness for `fetch_settles_exactly_once`: the one-event run where
only the deadline fires. -/
theorem fetch_settles_exactly_once_witness :
    (runFetch [FetchEvent.deadline]).settleTransitions = 1 ∧
    (runFetch [FetchEvent.deadline]).settled.isSome ∧
    1 ≤ (runFetch [FetchEvent.deadline]).closeCalls := by
  exact fetch_settles_exactly_once [FetchEvent.deadline] (by simp)

/-- C6: evaluation at the failing input. A `/api/token` request with an
ok but unparseable response does NOT settle the "Invalid response"
failure: the listener closes the browser and then crashes on
`delete json._notes` (with `json = null`), leaving the promise
unsettled. The neighbouring branches behave as claimed: a missing or
not-ok response settles the "Invalid response from Spotify." failure,
and a parseable ok response resolves with the payload minus `_notes`. -/
theorem listener_unparseable_crashes :
    (runFetch [.requestFinished tokenUrl (some ⟨true, none⟩)]).listenerCrashed = true ∧
    (runFetch [.requestFinished tokenUrl (some ⟨true, none⟩)]).settled = none ∧
    (runFetch [.requestFinished tokenUrl (some ⟨true, none⟩)]).closeCalls = 1 ∧
    (runFetch [.requestFinished tokenUrl none]).settled =
      some (.error "Invalid response from Spotify.") ∧
    (runFetch [.requestFinished tokenUrl (some ⟨false, some ⟨"tok", 20000, some "n"⟩⟩)]).settled =
      some (.error "Invalid response from Spotify.") ∧
    (runFetch [.requestFinished tokenUrl (some ⟨true, some ⟨"tok", 20000, some "n"⟩⟩)]).settled =
      some (.ok ⟨"tok", 20000, none⟩) := by
  decide

/-- C9: when the page-open step fails after the browser launched, the
setup closes the browser and rejects but does not return: the deadline
timer still gets armed and the subsequent `page.addListener` call on the
missing page throws. By contrast, the launch-failure path returns early,
and the happy path attaches the listener without throwing. -/
theorem page_failure_no_short_circuit :
    getAccessTokenSetup true false =
      { closeCalls := 1, rejected := some "Failed to open new page"
        timerScheduled := true, listenerThrew := true, returnedEarly := false } ∧
    getAccessTokenSetup false false =
      { closeCalls := 0, rejected := some "Failed to launch browser"
        timerScheduled := false, listenerThrew := false, returnedEarly := true } ∧
    getAccessTokenSetup true true =
      { closeCalls := 0, rejected := none, timerScheduled := true
        listenerThrew := false, returnedEarly := false } := by
  decide

/-! ## Theorems about the coordinator -/

lemma setTaskPhase_getElem? (ts : List HTask) (j : Nat) (p : Phase) (t : HTask)
    (h : ts[j]? = some t) (k : Nat) :
    (setTaskPhase ts j p)[k]? = if k = j then some { t with ph := p } else ts[k]? := by
  unfold setTaskPhase
  rw [h]
  by_cases hk : k = j
  · subst hk
    have hlt : k < ts.length := (List.getElem?_eq_some.mp h).1
    simp [List.getElem?_set_eq_of_lt _ hlt]
  · simp [hk, List.getElem?_set_ne (Ne.symm hk)]

lemma getElem?_setTaskPhase_self (ts : List HTask) (j : Nat) (p : Phase) (t : HTask)
    (h : ts[j]? = some t) :
    (setTaskPhase ts j p)[j]? = some { t with ph := p } := by
  rw [setTaskPhase_getElem? ts j p t h j, if_pos rfl]

lemma getElem?_setTaskPhase_of_ne (ts : List HTask) (j : Nat) (p : Phase) (t : HTask)
    (h : ts[j]? = some t) (k : Nat) (hk : k ≠ j) :
    (setTaskPhase ts j p)[k]? = ts[k]? := by
  rw [setTaskPhase_getElem? ts j p t h k, if_neg hk]

lemma setTaskPhase_of_getElem?_none (ts : List HTask) (j : Nat) (p : Phase)
    (h : ts[j]? = none) : setTaskPhase ts j p = ts := by
  unfold setTaskPhase; rw [h]

lemma setTaskPhase_length (ts : List HTask) (j : Nat) (p : Phase) :
    (setTaskPhase ts j p).length = ts.length := by
  unfold setTaskPhase
  cases ts[j]? <;> simp

lemma coordRelease_nil (c : Config) (h : c.semaphore._waiters = []) :
    coordRelease c = { c with semaphore := ⟨false, []⟩ } := by
  unfold coordRelease Semaphore._release
  rw [h]

lemma coordRelease_cons (c : Config) (w : Nat) (rest : List Nat)
    (h : c.semaphore._waiters = w :: rest) :
    coordRelease c = { c with semaphore := ⟨c.semaphore._locked, rest⟩
                              tasks := setTaskPhase c.tasks w .hasLock } := by
  unfold coordRelease Semaphore._release
  rw [h]

lemma tasks_length_taskStep (now : Int) (oracle : Nat → Except String SpotifyToken)
    (c : Config) (i : Nat) :
    (taskStep now oracle c i).tasks.length = c.tasks.length := by
  unfold taskStep coordRelease
  (repeat' split) <;> simp [setTaskPhase_length]

lemma tasks_length_runCoord (now : Int) (oracle : Nat → Except String SpotifyToken)
    (c : Config) (sched : List Nat) :
    (runCoord now oracle c sched).tasks.length = c.tasks.length := by
  induction sched generalizing c with
  | nil => rfl
  | cons j rest ih =>
    show (runCoord now oracle (taskStep now oracle c j) rest).tasks.length = _
    rw [ih, tasks_length_taskStep]

/-- C4: fast path purity. A `get(false)` call (a `start` task with
`isForce = false`) finding a cached credential with
`expiry - now > 10000` finishes in its very first segment with that
credential as body, leaving the semaphore untouched (no `acquire`) and
the fetch-invocation count unchanged (no Fetcher call). -/
theorem fast_path_purity (now : Int) (oracle : Nat → Except String SpotifyToken)
    (c : Config) (i : Nat) (a : SpotifyToken)
    (ht : c.tasks[i]? = some ⟨false, .start⟩)
    (hc : c.cachedAccessToken = some a)
    (hv : 10000 < a.accessTokenExpirationTimestampMs - now) :
    taskStep now oracle c i = { c with tasks := setTaskPhase c.tasks i (.done (.ok a)) } ∧
    (taskStep now oracle c i).semaphore = c.semaphore ∧
    (taskStep now oracle c i).fetchCount = c.fetchCount ∧
    (taskStep now oracle c i).tasks[i]? = some ⟨false, .done (.ok a)⟩ := by
  have hvv : valid (some a) now = true := by
    simp [valid]; omega
  have hmain :
      taskStep now oracle c i = { c with tasks := setTaskPhase c.tasks i (.done (.ok a)) } := by
    unfold taskStep
    rw [ht]
    simp [hc, hvv, cacheBody]
  refine ⟨hmain, by rw [hmain], by rw [hmain], ?_⟩
  rw [hmain]
  simpa using getElem?_setTaskPhase_self c.tasks i (.done (.ok a)) ⟨false, .start⟩ ht

/-- Witness for `fast_path_purity` on `c4cfg` at `now = 0`. -/
theorem fast_path_purity_witness :
    taskStep 0 failOracle c4cfg 0 =
      { c4cfg with tasks := setTaskPhase c4cfg.tasks 0 (.done (.ok ⟨"tok", 20001⟩)) } ∧
    (taskStep 0 failOracle c4cfg 0).semaphore = c4cfg.semaphore ∧
    (taskStep 0 failOracle c4cfg 0).fetchCount = c4cfg.fetchCount ∧
    (taskStep 0 failOracle c4cfg 0).tasks[0]? = some ⟨false, .done (.ok ⟨"tok", 20001⟩)⟩ := by
  exact fast_path_purity 0 failOracle c4cfg 0 ⟨"tok", 20001⟩ (by decide) (by decide) (by decide)

/-- C5: no serve-stale on failure. First conjunct: a failing
`token.refresh()` leaves the cache slot untouched and finishes the call
with the error (the `catch` branch), releasing the lock. Second: a
subsequent `get(false)` finding the stale credential (validity expired)
does not finish with it — it proceeds to the lock. Third: once it holds
the lock with the cache still stale, it invokes the Fetcher again (the
failed refresh does not suppress the next attempt), and the outcome it
awaits is that new invocation's, not the stale credential. -/
theorem no_serve_stale (now : Int) (oracle : Nat → Except String SpotifyToken)
    (c : Config) (i : Nat) :
    (∀ (f : Bool) (e : String), c.tasks[i]? = some ⟨f, .fetching (.error e)⟩ →
      i ∉ c.semaphore._waiters →
      (taskStep now oracle c i).cachedAccessToken = c.cachedAccessToken ∧
      (taskStep now oracle c i).fetchCount = c.fetchCount ∧
      (taskStep now oracle c i).tasks[i]? = some ⟨f, .done (.error e)⟩) ∧
    (∀ (a : SpotifyToken), c.tasks[i]? = some ⟨false, .start⟩ →
      c.cachedAccessToken = some a →
      a.accessTokenExpirationTimestampMs - now ≤ 10000 →
      (taskStep now oracle c i).cachedAccessToken = c.cachedAccessToken ∧
      (taskStep now oracle c i).fetchCount = c.fetchCount ∧
      ∃ p, (taskStep now oracle c i).tasks[i]? = some ⟨false, p⟩ ∧
        (p = .hasLock ∨ p = .waitLock)) ∧
    (∀ (a : SpotifyToken), c.tasks[i]? = some ⟨false, .hasLock⟩ →
      c.cachedAccessToken = some a →
      a.accessTokenExpirationTimestampMs - now ≤ 10000 →
      (taskStep now oracle c i).cachedAccessToken = c.cachedAccessToken ∧
      (taskStep now oracle c i).fetchCount = c.fetchCount + 1 ∧
      (taskStep now oracle c i).tasks[i]? = some ⟨false, .fetching (oracle c.fetchCount)⟩) := by
  refine ⟨?_, ?_, ?_⟩
  · intro f e ht hw
    have hmain : taskStep now oracle c i =
        coordRelease { c with tasks := setTaskPhase c.tasks i (.done (.error e)) } := by
      unfold taskStep
      rw [ht]
    have hset :
        (setTaskPhase c.tasks i (.done (.error e)))[i]? = some ⟨f, .done (.error e)⟩ := by
      simpa using getElem?_setTaskPhase_self c.tasks i (.done (.error e)) ⟨f, .fetching (.error e)⟩ ht
    rw [hmain]
    cases hws : c.semaphore._waiters with
    | nil =>
      rw [coordRelease_nil
        { c with tasks := setTaskPhase c.tasks i (.done (.error e)) } (by exact hws)]
      exact ⟨rfl, rfl, hset⟩
    | cons w rest =>
      have hwi : i ≠ w := by
        intro hiw
        exact hw (hws ▸ (hiw ▸ List.mem_cons_self w rest))
      rw [coordRelease_cons
        { c with tasks := setTaskPhase c.tasks i (.done (.error e)) } w rest (by exact hws)]
      refine ⟨rfl, rfl, ?_⟩
      show (setTaskPhase (setTaskPhase c.tasks i (.done (.error e))) w .hasLock)[i]? = _
      cases hsw : (setTaskPhase c.tasks i (.done (.error e)))[w]? with
      | none =>
        rw [setTaskPhase_of_getElem?_none _ w .hasLock hsw]
        exact hset
      | some u =>
        rw [getElem?_setTaskPhase_of_ne _ w .hasLock u hsw i hwi]
        exact hset
  · intro a ht hc hexp
    have hvv : valid c.cachedAccessToken now = false := by
      rw [hc]; simp [valid]; omega
    by_cases hl : c.semaphore._locked
    · have hmain : taskStep now oracle c i =
          { c with
            semaphore := { c.semaphore with _waiters := c.semaphore._waiters ++ [i] }
            tasks := setTaskPhase c.tasks i .waitLock } := by
        unfold taskStep
        rw [ht]
        simp [hvv, Semaphore.acquire, hl]
      rw [hmain]
      refine ⟨rfl, rfl, ⟨.waitLock, ?_, .inr rfl⟩⟩
      simpa using getElem?_setTaskPhase_self c.tasks i .waitLock ⟨false, .start⟩ ht
    · have hmain : taskStep now oracle c i =
          { c with semaphore := { c.semaphore with _locked := true }
                   tasks := setTaskPhase c.tasks i .hasLock } := by
        unfold taskStep
        rw [ht]
        simp [hvv, Semaphore.acquire, hl]
      rw [hmain]
      refine ⟨rfl, rfl, ⟨.hasLock, ?_, .inl rfl⟩⟩
      simpa using getElem?_setTaskPhase_self c.tasks i .hasLock ⟨false, .start⟩ ht
  · intro a ht hc hexp
    have hvv : valid c.cachedAccessToken now = false := by
      rw [hc]; simp [valid]; omega
    unfold taskStep
    rw [ht]
    simp only [hvv, Bool.not_false, Bool.true_and, if_false, Bool.and_false]
    exact ⟨rfl, rfl, by
      simpa using getElem?_setTaskPhase_self c.tasks i (.fetching (oracle c.fetchCount))
        ⟨false, .hasLock⟩ ht⟩

/-- Witness for `no_serve_stale` (first conjunct) on `c5cfg`. -/
theorem no_serve_stale_witness :
    (taskStep 0 failOracle c5cfg 0).cachedAccessToken = c5cfg.cachedAccessToken ∧
    (taskStep 0 failOracle c5cfg 0).fetchCount = c5cfg.fetchCount ∧
    (taskStep 0 failOracle c5cfg 0).tasks[0]? = some ⟨false, .done (.error "boom")⟩ := by
  exact (no_serve_stale 0 failOracle c5cfg 0).1 false "boom" (by decide) (by decide)

/-- C10: an empty cache slot is simply invalid, not an error. The
`valid()` check on an empty slot evaluates to `false` for every time
(in JS: `undefined - 10000` is `NaN`, and `NaN > now` is `false`, with
no exception), so every call that starts against an empty cache slot —
whatever its `force` flag — proceeds to the locking/refresh path
instead of failing at the validity check. -/
theorem empty_cache_takes_refresh_path (now : Int)
    (oracle : Nat → Except String SpotifyToken) (c : Config) (i : Nat) :
    (∀ m : Int, valid none m = false) ∧
    (∀ t : HTask, c.tasks[i]? = some t → t.ph = .start →
      c.cachedAccessToken = none →
      ∃ p, (taskStep now oracle c i).tasks[i]? = some ⟨t.isForce, p⟩ ∧
        (p = .hasLock ∨ p = .waitLock)) := by
  refine ⟨fun m => rfl, ?_⟩
  intro t ht hp hc
  obtain ⟨f, q⟩ := t
  cases hp
  unfold taskStep
  rw [ht]
  simp only [hc]
  have hvv : valid (none : Option SpotifyToken) now = false := rfl
  rw [hvv]
  simp only [Bool.and_false, if_false]
  unfold Semaphore.acquire
  by_cases hl : c.semaphore._locked <;> simp [hl]
  · refine ⟨.waitLock, ?_, .inr rfl⟩
    simpa using getElem?_setTaskPhase_self c.tasks i .waitLock ⟨f, .start⟩ ht
  · refine ⟨.hasLock, ?_, .inl rfl⟩
    simpa using getElem?_setTaskPhase_self c.tasks i .hasLock ⟨f, .start⟩ ht

/-- Witness for `empty_cache_takes_refresh_path` on a fresh two-call
burst. -/
theorem empty_cache_takes_refresh_path_witness :
    ∃ p, (taskStep 0 failOracle (initConfig 2) 0).tasks[0]? = some ⟨false, p⟩ ∧
      (p = .hasLock ∨ p = .waitLock) := by
  exact (empty_cache_takes_refresh_path 0 failOracle (initConfig 2) 0).2
    ⟨false, .start⟩ (by decide) rfl rfl

/-! ## Single-flight: the inductive invariant argument -/

lemma getElem?_setTaskPhase_cases (ts : List HTask) (i : Nat) (p : Phase) (t : HTask)
    (hti : ts[i]? = some t) (k : Nat) (u : HTask)
    (hk : (setTaskPhase ts i p)[k]? = some u) :
    (k = i ∧ u = { t with ph := p }) ∨ (k ≠ i ∧ ts[k]? = some u) := by
  rw [setTaskPhase_getElem? ts i p t hti k] at hk
  by_cases hki : k = i
  · rw [if_pos hki] at hk
    cases hk
    exact .inl ⟨hki, rfl⟩
  · rw [if_neg hki] at hk
    exact .inr ⟨hki, hk⟩

lemma isFetchingPhase_eq_false_of_not_active (p : Phase) (h : isActive p = false) :
    isFetchingPhase p = false := by
  cases p <;> simp_all [isActive, isFetchingPhase]

lemma exists_of_isFetchingPhase (p : Phase) (h : isFetchingPhase p = true) :
    ∃ o, p = .fetching o := by
  cases p <;> simp_all [isFetchingPhase]

lemma isActive_of_isFetchingPhase (p : Phase) (h : isFetchingPhase p = true) :
    isActive p = true := by
  cases p <;> simp_all [isFetchingPhase, isActive]

lemma not_mem_waiters_of_phase_ne (c : Config) (i : Nat) (t : HTask)
    (hwait : ∀ j ∈ c.semaphore._waiters, c.tasks[j]? = some ⟨false, .waitLock⟩)
    (hti : c.tasks[i]? = some t) (hph : t.ph ≠ .waitLock) :
    i ∉ c.semaphore._waiters := by
  intro hin
  have h2 := hwait i hin
  rw [hti] at h2
  injection h2 with h3
  exact hph (by rw [h3])

/-- After the lock holder finishes with body `.ok d` (every task now
inactive, cache filled, one fetch), `release()` re-establishes the
invariant in phase C. -/
lemma coordInv_afterRelease (now : Int) (d : SpotifyToken) (X : Config)
    (hforce : ∀ (k : Nat) (u : HTask), X.tasks[k]? = some u → u.isForce = false)
    (hnodup : X.semaphore._waiters.Nodup)
    (hwait : ∀ j ∈ X.semaphore._waiters, X.tasks[j]? = some ⟨false, .waitLock⟩)
    (hnoact : ∀ (k : Nat) (u : HTask), X.tasks[k]? = some u → isActive u.ph = false)
    (hlocked : X.semaphore._locked = true)
    (hcache : X.cachedAccessToken = some d)
    (hcount : X.fetchCount = 1)
    (hdone : ∀ (k : Nat) (u : HTask) (b : Except String SpotifyToken),
      X.tasks[k]? = some u → u.ph = .done b → b = .ok d) :
    CoordInv now d (coordRelease X) := by
  cases hws : X.semaphore._waiters with
  | nil =>
    rw [coordRelease_nil X hws]
    refine ⟨hforce, by simp, by simp, ?_, ?_, .inr (.inr ⟨hcache, hcount, ?_, hdone⟩)⟩
    · intro k l tk tl hk hl hak hal
      rw [hnoact k tk hk] at hak
      exact absurd hak (by simp)
    · constructor
      · intro h
        exact absurd h (by simp)
      · rintro ⟨k, u, hk, hak⟩
        rw [hnoact k u hk] at hak
        exact absurd hak (by simp)
    · intro k u hk
      exact isFetchingPhase_eq_false_of_not_active u.ph (hnoact k u hk)
  | cons w rest =>
    have hwX : X.tasks[w]? = some ⟨false, .waitLock⟩ :=
      hwait w (hws ▸ List.mem_cons_self w rest)
    rw [coordRelease_cons X w rest hws]
    refine ⟨?_, ?_, ?_, ?_, ?_, .inr (.inr ⟨hcache, hcount, ?_, ?_⟩)⟩
    · intro k u hk
      rcases getElem?_setTaskPhase_cases X.tasks w .hasLock _ hwX k u hk with
        ⟨hkw, hu⟩ | ⟨hkw, hk'⟩
      · rw [hu]
      · exact hforce k u hk'
    · exact (List.nodup_cons.mp (hws ▸ hnodup)).2
    · intro j hj
      have hjw : j ≠ w := by
        intro hjw
        exact (List.nodup_cons.mp (hws ▸ hnodup)).1 (hjw ▸ hj)
      rw [getElem?_setTaskPhase_of_ne X.tasks w .hasLock _ hwX j hjw]
      exact hwait j (hws ▸ List.mem_cons_of_mem w hj)
    · intro k l tk tl hk hl hak hal
      rcases getElem?_setTaskPhase_cases X.tasks w .hasLock _ hwX k tk hk with
        ⟨hkw, _⟩ | ⟨hkw, hk'⟩
      · rcases getElem?_setTaskPhase_cases X.tasks w .hasLock _ hwX l tl hl with
          ⟨hlw, _⟩ | ⟨hlw, hl'⟩
        · rw [hkw, hlw]
        · rw [hnoact l tl hl'] at hal
          exact absurd hal (by simp)
      · rw [hnoact k tk hk'] at hak
        exact absurd hak (by simp)
    · constructor
      · intro _
        refine ⟨w, ⟨false, .hasLock⟩, ?_, rfl⟩
        simpa using getElem?_setTaskPhase_self X.tasks w .hasLock _ hwX
      · intro _
        exact hlocked
    · intro k u hk
      rcases getElem?_setTaskPhase_cases X.tasks w .hasLock _ hwX k u hk with
        ⟨_, hu⟩ | ⟨_, hk'⟩
      · rw [hu]; rfl
      · exact isFetchingPhase_eq_false_of_not_active u.ph (hnoact k u hk')
    · intro k u b hk hb
      rcases getElem?_setTaskPhase_cases X.tasks w .hasLock _ hwX k u hk with
        ⟨_, hu⟩ | ⟨_, hk'⟩
      · rw [hu] at hb
        exact absurd hb (by simp)
      · exact hdone k u b hk' hb

/-- The initial burst configuration — any cache slot that is invalid
at the burst's time — satisfies the invariant (phase A). -/
lemma coordInv_init (n : Nat) (now : Int) (d : SpotifyToken)
    (slot : Option SpotifyToken) (hstale : valid slot now = false) :
    CoordInv now d (initConfigWith slot n) := by
  refine ⟨?_, ?_, ?_, ?_, ?_, .inl ⟨hstale, rfl, ?_⟩⟩
  · intro i t h
    have ht := List.eq_of_mem_replicate (List.getElem?_mem h)
    simp [ht]
  · simp [initConfigWith, Semaphore.init]
  · intro j hj
    simp [initConfigWith, Semaphore.init] at hj
  · intro i j ti tj hi hj hai haj
    have hti := List.eq_of_mem_replicate (List.getElem?_mem hi)
    rw [hti] at hai
    exact absurd hai (by simp [isActive])
  · constructor
    · intro h
      exact absurd h (by simp [initConfigWith, Semaphore.init])
    · rintro ⟨i, t, hi, ha⟩
      have hti := List.eq_of_mem_replicate (List.getElem?_mem hi)
      rw [hti] at ha
      exact absurd ha (by simp [isActive])
  · intro i t h
    have ht := List.eq_of_mem_replicate (List.getElem?_mem h)
    simp [ht, isDone, isFetchingPhase]

lemma htask_update (t : HTask) (p : Phase) (hf : t.isForce = false) :
    ({ t with ph := p } : HTask) = ⟨false, p⟩ := by
  cases t
  simp_all

/-- One scheduler step preserves the invariant, provided the first
fetch invocation's outcome is `.ok d` with `d` valid at the burst's
time. -/
lemma coordInv_step (now : Int) (oracle : Nat → Except String SpotifyToken)
    (d : SpotifyToken) (h0 : oracle 0 = .ok d) (hvd : valid (some d) now = true)
    (c : Config) (i : Nat) (h : CoordInv now d c) :
    CoordInv now d (taskStep now oracle c i) := by
  obtain ⟨hforce, hnodup, hwait, hexcl, hlock, hphase⟩ := h
  cases hti : c.tasks[i]? with
  | none =>
    have hstep : taskStep now oracle c i = c := by
      simp only [taskStep, hti]
    rw [hstep]
    exact ⟨hforce, hnodup, hwait, hexcl, hlock, hphase⟩
  | some t =>
    have hf : t.isForce = false := hforce i t hti
    cases hp : t.ph with
    | waitLock =>
      have hstep : taskStep now oracle c i = c := by
        simp only [taskStep, hti, hp]
      rw [hstep]
      exact ⟨hforce, hnodup, hwait, hexcl, hlock, hphase⟩
    | done b =>
      have hstep : taskStep now oracle c i = c := by
        simp only [taskStep, hti, hp]
      rw [hstep]
      exact ⟨hforce, hnodup, hwait, hexcl, hlock, hphase⟩
    | start =>
      have hnin : i ∉ c.semaphore._waiters :=
        not_mem_waiters_of_phase_ne c i t hwait hti (by rw [hp]; simp)
      rcases hphase with hA | hB | hC
      · -- phase A: cache empty, guard false, acquire path
        have hguard : valid c.cachedAccessToken now = false := hA.1
        by_cases hl : c.semaphore._locked
        · -- lock held: join the waiter queue
          have hstep : taskStep now oracle c i =
              { c with
                semaphore := { c.semaphore with _waiters := c.semaphore._waiters ++ [i] }
                tasks := setTaskPhase c.tasks i .waitLock } := by
            simp only [taskStep, hti, hp, hguard, hf]
            simp [Semaphore.acquire, hl]
          rw [hstep]
          refine ⟨?_, ?_, ?_, ?_, ?_, .inl ⟨hA.1, hA.2.1, ?_⟩⟩
          · intro k u hk
            rcases getElem?_setTaskPhase_cases c.tasks i .waitLock t hti k u hk with
              ⟨_, hu⟩ | ⟨_, hk'⟩
            · rw [hu]; exact hf
            · exact hforce k u hk'
          · rw [List.nodup_append]
            refine ⟨hnodup, List.nodup_singleton i, ?_⟩
            intro a ha hb
            rw [List.mem_singleton] at hb
            exact hnin (hb ▸ ha)
          · intro j hj
            rcases List.mem_append.mp hj with hj1 | hj2
            · have hji : j ≠ i := fun hji => hnin (hji ▸ hj1)
              rw [getElem?_setTaskPhase_of_ne c.tasks i .waitLock t hti j hji]
              exact hwait j hj1
            · rw [List.mem_singleton] at hj2
              rw [hj2, getElem?_setTaskPhase_self c.tasks i .waitLock t hti, htask_update t _ hf]
          · intro k l tk tl hk hl2 hak hal
            rcases getElem?_setTaskPhase_cases c.tasks i .waitLock t hti k tk hk with
              ⟨_, hu⟩ | ⟨_, hk'⟩
            · rw [hu] at hak
              exact absurd hak (by simp [isActive])
            · rcases getElem?_setTaskPhase_cases c.tasks i .waitLock t hti l tl hl2 with
                ⟨_, hu2⟩ | ⟨_, hl'⟩
              · rw [hu2] at hal
                exact absurd hal (by simp [isActive])
              · exact hexcl k l tk tl hk' hl' hak hal
          · constructor
            · intro hlt
              obtain ⟨k, u, hk, hak⟩ := hlock.mp hlt
              have hki : k ≠ i := by
                intro hki
                rw [hki, hti] at hk
                injection hk with h4
                rw [← h4, hp] at hak
                exact absurd hak (by simp [isActive])
              exact ⟨k, u, by
                rw [getElem?_setTaskPhase_of_ne c.tasks i .waitLock t hti k hki]; exact hk, hak⟩
            · intro _
              exact hl
          · intro k u hk
            rcases getElem?_setTaskPhase_cases c.tasks i .waitLock t hti k u hk with
              ⟨_, hu⟩ | ⟨_, hk'⟩
            · rw [hu]
              exact ⟨rfl, rfl⟩
            · exact hA.2.2 k u hk'
        · -- lock free: become the holder
          have hstep : taskStep now oracle c i =
              { c with semaphore := { c.semaphore with _locked := true }
                       tasks := setTaskPhase c.tasks i .hasLock } := by
            simp only [taskStep, hti, hp, hguard, hf]
            simp [Semaphore.acquire, hl]
          rw [hstep]
          have hnoact : ∀ (k : Nat) (u : HTask), c.tasks[k]? = some u →
              isActive u.ph = false := by
            intro k u hk
            cases hau : isActive u.ph
            · rfl
            · exact absurd (hlock.mpr ⟨k, u, hk, hau⟩) hl
          refine ⟨?_, hnodup, ?_, ?_, ?_, .inl ⟨hA.1, hA.2.1, ?_⟩⟩
          · intro k u hk
            rcases getElem?_setTaskPhase_cases c.tasks i .hasLock t hti k u hk with
              ⟨_, hu⟩ | ⟨_, hk'⟩
            · rw [hu]; exact hf
            · exact hforce k u hk'
          · intro j hj
            have hji : j ≠ i := fun hji => hnin (hji ▸ hj)
            rw [getElem?_setTaskPhase_of_ne c.tasks i .hasLock t hti j hji]
            exact hwait j hj
          · intro k l tk tl hk hl2 hak hal
            rcases getElem?_setTaskPhase_cases c.tasks i .hasLock t hti k tk hk with
              ⟨hki, _⟩ | ⟨_, hk'⟩
            · rcases getElem?_setTaskPhase_cases c.tasks i .hasLock t hti l tl hl2 with
                ⟨hli, _⟩ | ⟨_, hl'⟩
              · rw [hki, hli]
              · rw [hnoact l tl hl'] at hal
                exact absurd hal (by simp)
            · rw [hnoact k tk hk'] at hak
              exact absurd hak (by simp)
          · constructor
            · intro _
              exact ⟨i, { t with ph := .hasLock }, by
                rw [getElem?_setTaskPhase_self c.tasks i .hasLock t hti], rfl⟩
            · intro _
              rfl
          · intro k u hk
            rcases getElem?_setTaskPhase_cases c.tasks i .hasLock t hti k u hk with
              ⟨_, hu⟩ | ⟨_, hk'⟩
            · rw [hu]
              exact ⟨rfl, rfl⟩
            · exact hA.2.2 k u hk'
      · -- phase B: a fetch is in flight, so the lock is held; join queue
        have hguard : valid c.cachedAccessToken now = false := hB.1
        obtain ⟨kf, uf, hkf, hfet⟩ := hB.2.2.2.2
        have hl : c.semaphore._locked = true :=
          hlock.mpr ⟨kf, uf, hkf, isActive_of_isFetchingPhase uf.ph hfet⟩
        have hkfi : kf ≠ i := by
          intro hkfi
          rw [hkfi, hti] at hkf
          injection hkf with h4
          rw [← h4, hp] at hfet
          exact absurd hfet (by simp [isFetchingPhase])
        have hstep : taskStep now oracle c i =
            { c with
              semaphore := { c.semaphore with _waiters := c.semaphore._waiters ++ [i] }
              tasks := setTaskPhase c.tasks i .waitLock } := by
          simp only [taskStep, hti, hp, hguard, hf]
          simp [Semaphore.acquire, hl]
        rw [hstep]
        refine ⟨?_, ?_, ?_, ?_, ?_, .inr (.inl ⟨hB.1, hB.2.1, ?_, ?_, ?_⟩)⟩
        · intro k u hk
          rcases getElem?_setTaskPhase_cases c.tasks i .waitLock t hti k u hk with
            ⟨_, hu⟩ | ⟨_, hk'⟩
          · rw [hu]; exact hf
          · exact hforce k u hk'
        · rw [List.nodup_append]
          refine ⟨hnodup, List.nodup_singleton i, ?_⟩
          intro a ha hb
          rw [List.mem_singleton] at hb
          exact hnin (hb ▸ ha)
        · intro j hj
          rcases List.mem_append.mp hj with hj1 | hj2
          · have hji : j ≠ i := fun hji => hnin (hji ▸ hj1)
            rw [getElem?_setTaskPhase_of_ne c.tasks i .waitLock t hti j hji]
            exact hwait j hj1
          · rw [List.mem_singleton] at hj2
            rw [hj2, getElem?_setTaskPhase_self c.tasks i .waitLock t hti, htask_update t _ hf]
        · intro k l tk tl hk hl2 hak hal
          rcases getElem?_setTaskPhase_cases c.tasks i .waitLock t hti k tk hk with
            ⟨_, hu⟩ | ⟨_, hk'⟩
          · rw [hu] at hak
            exact absurd hak (by simp [isActive])
          · rcases getElem?_setTaskPhase_cases c.tasks i .waitLock t hti l tl hl2 with
              ⟨_, hu2⟩ | ⟨_, hl'⟩
            · rw [hu2] at hal
              exact absurd hal (by simp [isActive])
            · exact hexcl k l tk tl hk' hl' hak hal
        · constructor
          · intro _
            exact ⟨kf, uf, by
              rw [getElem?_setTaskPhase_of_ne c.tasks i .waitLock t hti kf hkfi]; exact hkf,
              isActive_of_isFetchingPhase uf.ph hfet⟩
          · intro _
            exact hl
        · intro k u hk
          rcases getElem?_setTaskPhase_cases c.tasks i .waitLock t hti k u hk with
            ⟨_, hu⟩ | ⟨_, hk'⟩
          · rw [hu]
            rfl
          · exact hB.2.2.1 k u hk'
        · intro k u o hk ho
          rcases getElem?_setTaskPhase_cases c.tasks i .waitLock t hti k u hk with
            ⟨_, hu⟩ | ⟨_, hk'⟩
          · rw [hu] at ho
            exact absurd ho (by simp)
          · exact hB.2.2.2.1 k u o hk' ho
        · exact ⟨kf, uf, by
            rw [getElem?_setTaskPhase_of_ne c.tasks i .waitLock t hti kf hkfi]; exact hkf, hfet⟩
      · -- phase C: fast path serves the cache
        have hguard : valid c.cachedAccessToken now = true := by rw [hC.1]; exact hvd
        have hstep : taskStep now oracle c i =
            { c with tasks := setTaskPhase c.tasks i (.done (.ok d)) } := by
          simp only [taskStep, hti, hp, hguard, hf]
          simp [hC.1, cacheBody]
        rw [hstep]
        refine ⟨?_, hnodup, ?_, ?_, ?_, .inr (.inr ⟨hC.1, hC.2.1, ?_, ?_⟩)⟩
        · intro k u hk
          rcases getElem?_setTaskPhase_cases c.tasks i (.done (.ok d)) t hti k u hk with
            ⟨_, hu⟩ | ⟨_, hk'⟩
          · rw [hu]; exact hf
          · exact hforce k u hk'
        · intro j hj
          have hji : j ≠ i := fun hji => hnin (hji ▸ hj)
          rw [getElem?_setTaskPhase_of_ne c.tasks i (.done (.ok d)) t hti j hji]
          exact hwait j hj
        · intro k l tk tl hk hl2 hak hal
          rcases getElem?_setTaskPhase_cases c.tasks i (.done (.ok d)) t hti k tk hk with
            ⟨_, hu⟩ | ⟨_, hk'⟩
          · rw [hu] at hak
            exact absurd hak (by simp [isActive])
          · rcases getElem?_setTaskPhase_cases c.tasks i (.done (.ok d)) t hti l tl hl2 with
              ⟨_, hu2⟩ | ⟨_, hl'⟩
            · rw [hu2] at hal
              exact absurd hal (by simp [isActive])
            · exact hexcl k l tk tl hk' hl' hak hal
        · constructor
          · intro hlt
            obtain ⟨k, u, hk, hak⟩ := hlock.mp hlt
            have hki : k ≠ i := by
              intro hki
              rw [hki, hti] at hk
              injection hk with h4
              rw [← h4, hp] at hak
              exact absurd hak (by simp [isActive])
            exact ⟨k, u, by
              rw [getElem?_setTaskPhase_of_ne c.tasks i (.done (.ok d)) t hti k hki]
              exact hk, hak⟩
          · rintro ⟨k, u, hk, hak⟩
            rcases getElem?_setTaskPhase_cases c.tasks i (.done (.ok d)) t hti k u hk with
              ⟨_, hu⟩ | ⟨_, hk'⟩
            · rw [hu] at hak
              exact absurd hak (by simp [isActive])
            · exact hlock.mpr ⟨k, u, hk', hak⟩
        · intro k u hk
          rcases getElem?_setTaskPhase_cases c.tasks i (.done (.ok d)) t hti k u hk with
            ⟨_, hu⟩ | ⟨_, hk'⟩
          · rw [hu]
            rfl
          · exact hC.2.2.1 k u hk'
        · intro k u b hk hb
          rcases getElem?_setTaskPhase_cases c.tasks i (.done (.ok d)) t hti k u hk with
            ⟨_, hu⟩ | ⟨_, hk'⟩
          · rw [hu] at hb
            injection hb with h5
            exact h5.symm
          · exact hC.2.2.2 k u b hk' hb
    | hasLock =>
      have hnin : i ∉ c.semaphore._waiters :=
        not_mem_waiters_of_phase_ne c i t hwait hti (by rw [hp]; simp)
      rcases hphase with hA | hB | hC
      · -- phase A: double-check fails, invoke the Fetcher
        have hguard : valid c.cachedAccessToken now = false := hA.1
        have hstep : taskStep now oracle c i =
            { c with fetchCount := c.fetchCount + 1
                     tasks := setTaskPhase c.tasks i (.fetching (oracle c.fetchCount)) } := by
          simp only [taskStep, hti, hp, hguard, hf]
          simp
        rw [hstep]
        have hco : oracle c.fetchCount = .ok d := by
          rw [hA.2.1]
          exact h0
        refine ⟨?_, hnodup, ?_, ?_, ?_,
          .inr (.inl ⟨hA.1, by rw [hA.2.1], ?_, ?_, ?_⟩)⟩
        · intro k u hk
          rcases getElem?_setTaskPhase_cases c.tasks i (.fetching (oracle c.fetchCount)) t hti
            k u hk with ⟨_, hu⟩ | ⟨_, hk'⟩
          · rw [hu]; exact hf
          · exact hforce k u hk'
        · intro j hj
          have hji : j ≠ i := fun hji => hnin (hji ▸ hj)
          rw [getElem?_setTaskPhase_of_ne c.tasks i (.fetching (oracle c.fetchCount)) t hti j hji]
          exact hwait j hj
        · intro k l tk tl hk hl2 hak hal
          rcases getElem?_setTaskPhase_cases c.tasks i (.fetching (oracle c.fetchCount)) t hti
            k tk hk with ⟨hki, _⟩ | ⟨hki, hk'⟩
          · rcases getElem?_setTaskPhase_cases c.tasks i (.fetching (oracle c.fetchCount)) t hti
              l tl hl2 with ⟨hli, _⟩ | ⟨hli, hl'⟩
            · rw [hki, hli]
            · exact absurd (hexcl l i tl t hl' hti hal (by rw [hp]; rfl)) hli
          · exact absurd (hexcl k i tk t hk' hti hak (by rw [hp]; rfl)) hki
        · constructor
          · intro _
            exact ⟨i, { t with ph := .fetching (oracle c.fetchCount) }, by
              rw [getElem?_setTaskPhase_self c.tasks i (.fetching (oracle c.fetchCount)) t hti],
              rfl⟩
          · intro _
            exact hlock.mpr ⟨i, t, hti, by rw [hp]; rfl⟩
        · intro k u hk
          rcases getElem?_setTaskPhase_cases c.tasks i (.fetching (oracle c.fetchCount)) t hti
            k u hk with ⟨_, hu⟩ | ⟨_, hk'⟩
          · rw [hu]
            rfl
          · exact (hA.2.2 k u hk').1
        · intro k u o hk ho
          rcases getElem?_setTaskPhase_cases c.tasks i (.fetching (oracle c.fetchCount)) t hti
            k u hk with ⟨_, hu⟩ | ⟨_, hk'⟩
          · have ho2 : Phase.fetching (oracle c.fetchCount) = .fetching o := by
              rw [hu] at ho
              exact ho
            injection ho2 with h5
            rw [← h5]
            exact hco
          · have := (hA.2.2 k u hk').2
            rw [ho] at this
            exact absurd this (by simp [isFetchingPhase])
        · exact ⟨i, { t with ph := .fetching (oracle c.fetchCount) }, by
            rw [getElem?_setTaskPhase_self c.tasks i (.fetching (oracle c.fetchCount)) t hti],
            rfl⟩
      · -- phase B: impossible, the fetching task already holds the lock
        obtain ⟨kf, uf, hkf, hfet⟩ := hB.2.2.2.2
        have heq := hexcl i kf t uf hti hkf (by rw [hp]; rfl)
          (isActive_of_isFetchingPhase uf.ph hfet)
        obtain ⟨o, ho⟩ := exists_of_isFetchingPhase uf.ph hfet
        have h6 : uf = t := by
          injection hkf.symm.trans (heq ▸ hti)
        rw [h6, hp] at ho
        exact absurd ho (by simp)
      · -- phase C: double-check succeeds, serve and release
        have hguard : valid c.cachedAccessToken now = true := by rw [hC.1]; exact hvd
        have hstep : taskStep now oracle c i =
            coordRelease { c with tasks := setTaskPhase c.tasks i (.done (.ok d)) } := by
          simp only [taskStep, hti, hp, hguard, hf]
          simp [hC.1, cacheBody]
        rw [hstep]
        apply coordInv_afterRelease now d
        · intro k u hk
          rcases getElem?_setTaskPhase_cases c.tasks i (.done (.ok d)) t hti k u hk with
            ⟨_, hu⟩ | ⟨_, hk'⟩
          · rw [hu]; exact hf
          · exact hforce k u hk'
        · exact hnodup
        · intro j hj
          have hji : j ≠ i := fun hji => hnin (hji ▸ hj)
          show (setTaskPhase c.tasks i (.done (.ok d)))[j]? = _
          rw [getElem?_setTaskPhase_of_ne c.tasks i (.done (.ok d)) t hti j hji]
          exact hwait j hj
        · intro k u hk
          rcases getElem?_setTaskPhase_cases c.tasks i (.done (.ok d)) t hti k u hk with
            ⟨_, hu⟩ | ⟨hki, hk'⟩
          · rw [hu]
            rfl
          · cases hau : isActive u.ph
            · rfl
            · exact absurd (hexcl k i u t hk' hti hau (by rw [hp]; rfl)) hki
        · exact hlock.mpr ⟨i, t, hti, by rw [hp]; rfl⟩
        · exact hC.1
        · exact hC.2.1
        · intro k u b hk hb
          rcases getElem?_setTaskPhase_cases c.tasks i (.done (.ok d)) t hti k u hk with
            ⟨_, hu⟩ | ⟨_, hk'⟩
          · rw [hu] at hb
            injection hb with h5
            exact h5.symm
          · exact hC.2.2.2 k u b hk' hb
    | fetching o =>
      have hnin : i ∉ c.semaphore._waiters :=
        not_mem_waiters_of_phase_ne c i t hwait hti (by rw [hp]; simp)
      rcases hphase with hA | hB | hC
      · have := (hA.2.2 i t hti).2
        rw [hp] at this
        exact absurd this (by simp [isFetchingPhase])
      · -- phase B: the fetch completes with `.ok d`, cache is filled
        have ho : o = .ok d := hB.2.2.2.1 i t o hti hp
        subst ho
        have hstep : taskStep now oracle c i =
            coordRelease { c with cachedAccessToken := some d
                                  tasks := setTaskPhase c.tasks i (.done (.ok d)) } := by
          simp only [taskStep, hti, hp]
        rw [hstep]
        apply coordInv_afterRelease now d
        · intro k u hk
          rcases getElem?_setTaskPhase_cases c.tasks i (.done (.ok d)) t hti k u hk with
            ⟨_, hu⟩ | ⟨_, hk'⟩
          · rw [hu]; exact hf
          · exact hforce k u hk'
        · exact hnodup
        · intro j hj
          have hji : j ≠ i := fun hji => hnin (hji ▸ hj)
          show (setTaskPhase c.tasks i (.done (.ok d)))[j]? = _
          rw [getElem?_setTaskPhase_of_ne c.tasks i (.done (.ok d)) t hti j hji]
          exact hwait j hj
        · intro k u hk
          rcases getElem?_setTaskPhase_cases c.tasks i (.done (.ok d)) t hti k u hk with
            ⟨_, hu⟩ | ⟨hki, hk'⟩
          · rw [hu]
            rfl
          · cases hau : isActive u.ph
            · rfl
            · exact absurd (hexcl k i u t hk' hti hau (by rw [hp]; rfl)) hki
        · exact hlock.mpr ⟨i, t, hti, by rw [hp]; rfl⟩
        · rfl
        · exact hB.2.1
        · intro k u b hk hb
          rcases getElem?_setTaskPhase_cases c.tasks i (.done (.ok d)) t hti k u hk with
            ⟨_, hu⟩ | ⟨_, hk'⟩
          · rw [hu] at hb
            injection hb with h5
            exact h5.symm
          · have := hB.2.2.1 k u hk'
            rw [hb] at this
            exact absurd this (by simp [isDone])
      · have := hC.2.2.1 i t hti
        rw [hp] at this
        exact absurd this (by simp [isFetchingPhase])

lemma coordInv_run (now : Int) (oracle : Nat → Except String SpotifyToken)
    (d : SpotifyToken) (h0 : oracle 0 = .ok d) (hvd : valid (some d) now = true)
    (c : Config) (sched : List Nat) (h : CoordInv now d c) :
    CoordInv now d (runCoord now oracle c sched) := by
  induction sched generalizing c with
  | nil => exact h
  | cons j rest ih =>
    exact ih (taskStep now oracle c j) (coordInv_step now oracle d h0 hvd c j h)

/-- C1 amended: for every number of callers `n ≥ 1` and every complete
interleaving of a burst of `get(false)` calls issued while the cache
slot is invalid — empty, or holding an expired credential — if the
first Fetcher invocation succeeds with a credential `d` still inside
its validity window, then the Fetcher runs exactly once and every
caller finishes with that same credential. (The error half of the
original claim is false — see the counterexample.) -/
theorem single_flight_success (n : Nat) (sched : List Nat) (now : Int)
    (oracle : Nat → Except String SpotifyToken) (slot : Option SpotifyToken)
    (d : SpotifyToken)
    (hstale : valid slot now = false)
    (h0 : oracle 0 = .ok d)
    (hvd : 10000 < d.accessTokenExpirationTimestampMs - now)
    (hn : 0 < n)
    (hdone : ∀ t ∈ (runCoord now oracle (initConfigWith slot n) sched).tasks,
      isDone t.ph = true) :
    (runCoord now oracle (initConfigWith slot n) sched).fetchCount = 1 ∧
    ∀ t ∈ (runCoord now oracle (initConfigWith slot n) sched).tasks,
      t.ph = .done (.ok d) := by
  have hvd' : valid (some d) now = true := by simp [valid]; omega
  have hinv := coordInv_run now oracle d h0 hvd' (initConfigWith slot n) sched
    (coordInv_init n now d slot hstale)
  obtain ⟨hforce, hnodup, hwait, hexcl, hlock, hphase⟩ := hinv
  have hlen : (runCoord now oracle (initConfigWith slot n) sched).tasks.length = n := by
    rw [tasks_length_runCoord]
    simp [initConfigWith]
  have h0lt : 0 < (runCoord now oracle (initConfigWith slot n) sched).tasks.length := by
    omega
  have h00 : (runCoord now oracle (initConfigWith slot n) sched).tasks[0]? =
      some ((runCoord now oracle (initConfigWith slot n) sched).tasks[0]) :=
    List.getElem?_eq_getElem h0lt
  rcases hphase with hA | hB | hC
  · have h1 := (hA.2.2 0 _ h00).1
    have h2 := hdone _ (List.getElem?_mem h00)
    rw [h1] at h2
    exact absurd h2 (by simp)
  · have h1 := hB.2.2.1 0 _ h00
    have h2 := hdone _ (List.getElem?_mem h00)
    rw [h1] at h2
    exact absurd h2 (by simp)
  · refine ⟨hC.2.1, ?_⟩
    intro t ht
    obtain ⟨k, hk⟩ := List.mem_iff_getElem?.mp ht
    have h2 := hdone t ht
    cases hq : t.ph with
    | done b =>
      rw [hC.2.2.2 k t b hk hq]
    | start => rw [hq] at h2; exact absurd h2 (by simp [isDone])
    | waitLock => rw [hq] at h2; exact absurd h2 (by simp [isDone])
    | hasLock => rw [hq] at h2; exact absurd h2 (by simp [isDone])
    | fetching o => rw [hq] at h2; exact absurd h2 (by simp [isDone])

/-- Witness for `single_flight_success`: one caller arriving at a
slot holding an expired credential, schedule `[0, 0, 0]`, fetch
delivering a fresh token. -/
theorem single_flight_success_witness :
    (runCoord 0 (fun _ => .ok ⟨"tok", 20001⟩)
      (initConfigWith (some ⟨"stale", 5000⟩) 1) [0, 0, 0]).fetchCount = 1 ∧
    ∀ t ∈ (runCoord 0 (fun _ => .ok ⟨"tok", 20001⟩)
        (initConfigWith (some ⟨"stale", 5000⟩) 1) [0, 0, 0]).tasks,
      t.ph = .done (.ok ⟨"tok", 20001⟩) := by
  exact single_flight_success 1 [0, 0, 0] 0 (fun _ => .ok ⟨"tok", 20001⟩)
    (some ⟨"stale", 5000⟩) ⟨"tok", 20001⟩ (by decide) rfl (by decide) (by decide) (by decide)

/-- C1 counterexample: two logically-concurrent `get(false)` calls
against an empty cache whose fetches fail. The schedule is: both run
their fast-path check and acquire (caller 0 takes the lock, caller 1
queues); caller 0 fetches and fails, its release resumes caller 1,
whose double-check still fails, so it fetches again. The Fetcher runs
twice — not "exactly once" — refuting the error half of the claim. -/
theorem single_flight_error_counterexample :
    (runCoord 0 failOracle (initConfig 2) [0, 1, 0, 0, 1, 1]).fetchCount = 2 ∧
    ∀ t ∈ (runCoord 0 failOracle (initConfig 2) [0, 1, 0, 0, 1, 1]).tasks,
      isDone t.ph = true := by
  decide

end Anonify
